import Mathlib

/-!
Verification of the transcript-generation pipeline in src/main.py.

The Python source is shallowly embedded: record-store values become the
inductive Val, record field mappings become the structure Fields, and each
helper of main.py becomes a total Lean function of the same name.  Python
string primitives (strip, lower, upper, split, join, substring test) are
re-implemented over List Char so that every definition is executable and
kernel-reducible; they agree with CPython on the ASCII inputs the program
manipulates.  Python float formatting is modelled over rationals with
round-half-even; no theorem below depends on float tie behavior.
-/

namespace TranscriptGen

/-! ## String primitives (models of Python str methods) -/

/-- Model of Python str.strip: drop leading and trailing whitespace. -/
def strTrim (s : String) : String :=
  ⟨((s.data.dropWhile Char.isWhitespace).reverse.dropWhile Char.isWhitespace).reverse⟩

/-- Model of Python str.lower (ASCII range). -/
def strLower (s : String) : String := ⟨s.data.map Char.toLower⟩

/-- Model of Python str.upper (ASCII range). -/
def strUpper (s : String) : String := ⟨s.data.map Char.toUpper⟩

/-- Auxiliary for splitChar: acc holds the current segment reversed. -/
def splitCharAux (c : Char) : List Char → List Char → List String
  | [], acc => [⟨acc.reverse⟩]
  | x :: xs, acc =>
    if x == c then ⟨acc.reverse⟩ :: splitCharAux c xs []
    else splitCharAux c xs (x :: acc)

/-- Model of Python str.split on a one-character separator:
splitChar c "" = [""], and separators at the ends yield empty segments. -/
def splitChar (c : Char) (s : String) : List String := splitCharAux c s.data []

/-- pat is a leading segment of the second list. -/
def leadSeg : List Char → List Char → Bool
  | [], _ => true
  | _ :: _, [] => false
  | p :: ps, c :: cs => p == c && leadSeg ps cs

/-- pat occurs as a contiguous segment of the list. -/
def hasSeg (pat : List Char) : List Char → Bool
  | [] => pat.isEmpty
  | c :: cs => leadSeg pat (c :: cs) || hasSeg pat cs

/-- Model of the Python `in` operator on strings. -/
def strHasSub (s pat : String) : Bool := hasSeg pat.data s.data

/-- Model of Python str.endswith. -/
def strEndsWith (s pat : String) : Bool := leadSeg pat.data.reverse s.data.reverse

/-- Model of Python sep.join(pieces). -/
def joinSep (sep : String) : List String → String
  | [] => ""
  | [x] => x
  | x :: y :: xs => x ++ sep ++ joinSep sep (y :: xs)

/-! ## Record-store values and fields (data model of main.py) -/

/-- A record-store field value: absent/None, a string, a number,
or a list of strings (linked/rollup fields). -/
inductive Val where
  | vnone
  | vstr (s : String)
  | vnum (q : ℚ)
  | vlist (l : List String)
deriving DecidableEq

/-- Decimal-style rendering of a rational; stands in for Python str() on
numbers.  No claim below depends on its exact output. -/
def ratStr (q : ℚ) : String :=
  if q.den = 1 then toString q.num
  else toString q.num ++ "/" ++ toString q.den

/-- Model of Python str() applied to a field value.  The vnone and vlist
branches are unreachable from the call sites in main.py, which test for
None and list before stringifying. -/
def pyStr : Val → String
  | .vnone => "None"
  | .vstr s => s
  | .vnum q => ratStr q
  | .vlist l => "[" ++ joinSep ", " l ++ "]"

/-- The record fields named in the F mapping of main.py. -/
structure Fields where
  student_name : Val
  student_id : Val
  grade_select : Val
  school_year : Val
  course_name : Val
  course_code : Val
  assigned_teachers : Val
  letter : Val
  current_score : Val
  course_name_rollup : Val
  course_code_rollup : Val
deriving DecidableEq

/-- All fields absent. -/
def emptyFields : Fields :=
  ⟨.vnone, .vnone, .vnone, .vnone, .vnone, .vnone, .vnone, .vnone, .vnone, .vnone, .vnone⟩

/-- A fetched record: its record identifier and its fields.  A Python dict
lacking an id key reads its id as the empty string via r.get with default,
so the embedded id of such a bundle is the empty string. -/
structure Rec where
  id : String
  fields : Fields
deriving DecidableEq

/-! ## Field Normalizer: sget and listify from main.py -/

/-- sget from main.py: absent gives the default, a list joins its
non-blank elements with comma-space, anything else stringifies. -/
def sget (v : Val) (dflt : String) : String :=
  match v with
  | .vnone => dflt
  | .vlist l => joinSep ", " (l.filter (fun x => strTrim x ≠ ""))
  | v => pyStr v

/-- listify from main.py: absent gives the empty list, a list keeps its
trimmed non-empty elements in order, a scalar splits on commas, trimming
and dropping empty segments. -/
def listify : Val → List String
  | .vnone => []
  | .vlist l => (l.map strTrim).filter (fun x => x ≠ "")
  | v => ((splitChar ',' (pyStr v)).map strTrim).filter (fun x => x ≠ "")

/-! ## Semester and grade classifier -/

/-- looks_honors from main.py: substring heuristic on the lowered name. -/
def looks_honors (name : String) : Bool :=
  let t := strLower name
  strHasSub t "honors" || strHasSub t "ap " || strHasSub t "ap®" ||
    strHasSub t "ap " || strHasSub t " ap"

/-- The QP_BASE letter-to-points dictionary of main.py, with points held
in tenths (so 40 encodes 4.0 and 37 encodes 3.7). -/
def QP_BASE : List (String × Nat) :=
  [("A", 40), ("A-", 37),
   ("B+", 35), ("B", 30), ("B-", 27),
   ("C+", 25), ("C", 20), ("C-", 17),
   ("D+", 15), ("D", 10), ("D-", 7),
   ("F", 0)]

/-- Dictionary lookup in QP_BASE. -/
def qpBase (l : String) : Option Nat :=
  (QP_BASE.find? (fun p => p.1 == l)).map Prod.snd

/-- Renders a tenths count the way the Python one-decimal format plus
rstrip does: 40 gives "4", 37 gives "3.7". -/
def fmtTenths (t : Nat) : String :=
  if t % 10 = 0 then toString (t / 10)
  else toString (t / 10) ++ "." ++ toString (t % 10)

/-- Python str.strip().upper() normalization applied to the letter. -/
def normLetter (s : String) : String := strUpper (strTrim s)

/-- quality_points from main.py: base points for a recognized letter plus
one full point for honors on a non-F letter, rendered with trailing
zeros stripped; empty string for unrecognized letters. -/
def quality_points (letter : String) (honors : Bool) : String :=
  match qpBase (normLetter letter) with
  | some b => fmtTenths (b + if honors ∧ normLetter letter ≠ "F" then 10 else 0)
  | none => ""

/-! ## Numeric helpers for the percent column -/

/-- All-digit character list to its value; empty list counts as zero
(the caller rules out the empty-empty case). -/
def digitsVal (cs : List Char) : Option Nat :=
  cs.foldl (fun acc c =>
    match acc with
    | none => none
    | some n => if c.isDigit then some (n * 10 + (c.toNat - 48)) else none) (some 0)

/-- Model of Python float() restricted to plain decimal literals with an
optional sign and at most one point; every other form maps to none, as
float() raising maps to the empty result in the caller.  Exponent and
infinity forms are out of scope for this embedding. -/
def parseRat (s : String) : Option ℚ :=
  let p : ℚ × List Char :=
    match s.data with
    | '-' :: r => (-1, r)
    | '+' :: r => (1, r)
    | cs => (1, cs)
  match splitCharAux '.' p.2 [] with
  | [ip] =>
    if ip.data = [] then none
    else (digitsVal ip.data).map (fun n => p.1 * (n : ℚ))
  | [ip, fp] =>
    if ip.data = [] ∧ fp.data = [] then none
    else
      match digitsVal ip.data, digitsVal fp.data with
      | some a, some b =>
        some (p.1 * ((a : ℚ) + (b : ℚ) / ((10 : ℚ) ^ fp.data.length)))
      | _, _ => none
  | _ => none

/-- _coerce_number from main.py: None gives no number, a number passes
through, anything else stringifies, strips, and parses or fails. -/
def coerce_number (v : Val) : Option ℚ :=
  match v with
  | .vnone => none
  | .vnum q => some q
  | _ =>
    let s := strTrim (pyStr v)
    if s = "" then none else parseRat s

/-- Round to the nearest integer, ties to even (the rounding of the
Python fixed-point format). -/
def roundHalfEven (q : ℚ) : ℤ :=
  let f : ℤ := ⌊q⌋
  let r : ℚ := q - (f : ℚ)
  if r < 1/2 then f
  else if 1/2 < r then f + 1
  else if f % 2 = 0 then f else f + 1

/-- Two-decimal fixed-point rendering with trailing zeros and a trailing
point stripped, as in main.py. -/
def fmtTwoDec (n : ℚ) : String :=
  let c := roundHalfEven (n * 100)
  let sgn := if c < 0 then "-" else ""
  let a := c.natAbs
  let ip := a / 100
  let fr := a % 100
  if fr = 0 then sgn ++ toString ip
  else if fr % 10 = 0 then sgn ++ toString ip ++ "." ++ toString (fr / 10)
  else if fr < 10 then sgn ++ toString ip ++ ".0" ++ toString fr
  else sgn ++ toString ip ++ "." ++ toString fr

/-- _fmt_percent from main.py: values between zero and one inclusive are
scaled by one hundred, then rendered with at most two decimals. -/
def fmt_percent (v : Val) : String :=
  match coerce_number v with
  | none => ""
  | some n => fmtTwoDec (if 0 ≤ n ∧ n ≤ 1 then n * 100 else n)

/-! ## Table Resolver: table_names and get_rec_and_table -/

/-- table_names from main.py: the comma-separated configured list, else
the single fallback name, else the hard default. -/
def table_names (tablesEnv fallbackEnv : String) : List String :=
  let names := ((splitChar ',' tablesEnv).map strTrim).filter (fun t => t ≠ "")
  let names := if names = [] ∧ strTrim fallbackEnv ≠ "" then [strTrim fallbackEnv] else names
  if names = [] then ["Students 1221"] else names

/-- get_rec_and_table from main.py, with the point lookup abstracted as a
function from table name to a record or an error.  The first component of
the result is the exact list of tables against which a lookup was
attempted; the second is either the resolved table-and-record or, once
every candidate has failed, an error carrying the most recent underlying
failure (none only when no candidate existed at all). -/
def get_rec_and_table (lookup : String → Except String Rec) :
    List String → Option String → List String × Except (Option String) (String × Rec)
  | [], last => ([], .error last)
  | t :: ts, _ =>
    match lookup t with
    | .ok r => ([t], .ok (t, r))
    | .error e =>
      let rest := get_rec_and_table lookup ts (some e)
      (t :: rest.1, rest.2)

/-! ## Course Row Expander: build_course_rows -/

/-- The Python truthiness fallback on lists: a or b. -/
def orElse (a b : List String) : List String := if a = [] then b else a

/-- Primary course names with rollup fallback, as in build_course_rows. -/
def names_src (f : Fields) : List String :=
  orElse (listify f.course_name) (listify f.course_name_rollup)

/-- Primary course codes with rollup fallback, as in build_course_rows. -/
def codes_src (f : Fields) : List String :=
  orElse (listify f.course_code) (listify f.course_code_rollup)

/-- The empty-list padding step of build_course_rows: an empty side is
replaced by blanks matching the other side, names first. -/
def padded (names codes : List String) : List String × List String :=
  let names1 := if names = [] then List.replicate codes.length "" else names
  let codes1 := if codes = [] then List.replicate names1.length "" else codes
  (names1, codes1)

/-- The length-mismatch rule of build_course_rows: broadcast a singleton
against a longer list, otherwise truncate both to the shorter length. -/
def pair_names_codes (ns cs : List String) : List String × List String :=
  if ns.length ≠ cs.length then
    if ns.length = 1 ∧ 1 < cs.length then
      (List.replicate cs.length (ns.headD ""), cs)
    else if cs.length = 1 ∧ 1 < ns.length then
      (ns, List.replicate ns.length (cs.headD ""))
    else
      (ns.take (min ns.length cs.length), cs.take (min ns.length cs.length))
  else (ns, cs)

/-- The first segment before a comma, trimmed: the Python idiom
s.split(",")[0].strip() used for teacher values. -/
def first_comma_trim (s : String) : String := strTrim ((splitChar ',' s).headD "")

/-- first_teacher from build_course_rows: the head teacher entry truncated
at its first comma and trimmed, or empty when there are no teachers. -/
def first_teacher (teachers : List String) : String :=
  match teachers with
  | [] => ""
  | t :: _ => first_comma_trim t

/-- The teacher entry paired with course index i: the parallel entry when
the teacher list is long enough, else the first-teacher fallback. -/
def teacher_entry (teachers : List String) (i : Nat) : String :=
  if i < teachers.length then teachers.getD i "" else first_teacher teachers

/-- The loop body of build_course_rows at index i: skip when both the
trimmed name and code are blank, else emit the six display columns. -/
def course_row_at (names2 codes2 teachers : List String) (letter percent : String)
    (i : Nat) : Option (List String) :=
  if strTrim (names2.getD i "") = "" ∧ strTrim (codes2.getD i "") = "" then none
  else
    some [strTrim (names2.getD i ""),
          strTrim (codes2.getD i ""),
          first_comma_trim (teacher_entry teachers i),
          if letter = "" then "—" else letter,
          percent,
          quality_points letter (looks_honors (strTrim (names2.getD i "")))]

/-- The letter grade read once per source row in build_course_rows. -/
def letter_of (f : Fields) : String := strTrim (sget f.letter "")

/-- build_course_rows from main.py: resolve names and codes with rollup
fallback, pad an empty side, apply the pairing rule, then emit one
six-column display row per surviving index. -/
def build_course_rows (f : Fields) : List (List String) :=
  if names_src f = [] ∧ codes_src f = [] then []
  else
    let p0 := padded (names_src f) (codes_src f)
    let p := pair_names_codes p0.1 p0.2
    (List.range p.1.length).filterMap
      (course_row_at p.1 p.2 (listify f.assigned_teachers) (letter_of f)
        (fmt_percent f.current_score))

/-! ## Enrollment Merger and the per-student row selection in main -/

/-- The per-student row selection in main: in cross-table mode the rows
are whatever the name search fetched, otherwise the single resolved
record. -/
def merged_rows_for_student (include_match : Bool) (rec : Rec) (fetched : List Rec) :
    List Rec :=
  if include_match then fetched else [rec]

/-- The pre-render fallback in main: an empty merged sequence is replaced
by a one-element bundle holding only the header fields; such a bundle has
no id key, so its embedded id is the empty string. -/
def rows_passed_to_renderer (merged : List Rec) (header_fields : Fields) : List Rec :=
  if merged = [] then [⟨"", header_fields⟩] else merged

/-! ## Row Reconciler: the dedupe, blank filter, and sort in build_pdf -/

/-- A display row survives when some column has non-whitespace content. -/
def row_has_content (row : List String) : Bool :=
  row.any (fun x => strTrim x ≠ "")

/-- The dedupe-and-filter loop of build_pdf: keep the first occurrence of
each exact tuple provided some column has content.  The second argument
is the seen set, grown exactly when a row is kept. -/
def dedup_clean : List (List String) → List (List String) → List (List String)
  | [], _ => []
  | row :: rest, seen =>
    if row ∉ seen ∧ row_has_content row then
      row :: dedup_clean rest (row :: seen)
    else dedup_clean rest seen

/-- The sort key of build_pdf: lowered course name and lowered code. -/
def row_key (row : List String) : String × String :=
  (strLower (row.getD 0 ""), strLower (row.getD 1 ""))

/-- Ascending order on display rows by the lowered name-code pair,
lexicographically, matching Python tuple comparison under sort. -/
def row_le (a b : List String) : Prop :=
  (row_key a).1 < (row_key b).1 ∨
    ((row_key a).1 = (row_key b).1 ∧ (row_key a).2 ≤ (row_key b).2)

instance : DecidableRel row_le := fun a b => by
  unfold row_le; infer_instance

instance : IsTotal (List String) row_le := by
  constructor
  intro a b
  rcases lt_trichotomy (row_key a).1 (row_key b).1 with h | h | h
  · exact Or.inl (Or.inl h)
  · rcases le_total (row_key a).2 (row_key b).2 with h2 | h2
    · exact Or.inl (Or.inr ⟨h, h2⟩)
    · exact Or.inr (Or.inr ⟨h.symm, h2⟩)
  · exact Or.inr (Or.inl h)

instance : IsTrans (List String) row_le := by
  constructor
  intro a b c hab hbc
  rcases hab with h1 | ⟨e1, l1⟩
  · rcases hbc with h2 | ⟨e2, _⟩
    · exact Or.inl (h1.trans h2)
    · exact Or.inl (e2 ▸ h1)
  · rcases hbc with h2 | ⟨e2, l2⟩
    · exact Or.inl (e1 ▸ h2)
    · exact Or.inr ⟨e1.trans e2, l1.trans l2⟩

/-- The placeholder row substituted when no course rows survive. -/
def no_courses_row : List String := ["(no courses found)", "", "", "", "", ""]

/-- The reconciliation step of build_pdf: dedupe by exact tuple keeping
first occurrences, drop all-blank rows, sort stably by the lowered
name-code pair (Python list.sort is stable, as is insertion sort), and
substitute the placeholder when nothing survives. -/
def reconcile (expanded : List (List String)) : List (List String) :=
  let clean := dedup_clean expanded []
  let sorted := List.insertionSort row_le clean
  if sorted = [] then [no_courses_row] else sorted

/-! ## Run Logger / Attacher -/

/-- The observable outcomes that decide the attacher control flow: the
attachment field name, whether the rendered file exists, the primary
transport outcome, the fallback HTTP post outcome (carrying the optional
asset id of the response), and the record patch outcome. -/
structure AttachEnv where
  field_name : String
  file_exists : Bool
  primary : Except String Unit
  post : Except String (Option String)
  update : Except String Unit

/-- Externally visible events of the logger and attacher. -/
inductive Ev where
  | primaryAttempt
  | secondaryAttempt
  | patch (uploadId : String)
  | created
deriving DecidableEq

/-- attach_pdf_to_log_record from main.py as its event trace: skip when
the field name is empty or the file is missing; try the primary
transport; on its failure run the fallback post exactly once and, when
the post succeeds with an asset id and the record patch succeeds, record
the patch.  Every failure path is swallowed and the function returns. -/
def attach_pdf_to_log_record (env : AttachEnv) : List Ev :=
  if env.field_name = "" then []
  else if env.file_exists = false then []
  else
    match env.primary with
    | .ok _ => [.primaryAttempt]
    | .error _ =>
      .primaryAttempt :: .secondaryAttempt ::
        (match env.post with
         | .error _ => []
         | .ok none => []
         | .ok (some uid) =>
           match env.update with
           | .ok _ => [.patch uid]
           | .error _ => [])

/-- log_to_airtable from main.py as its event trace: nothing when the log
table cannot be opened or the audit record creation fails; otherwise the
created record followed by the attach trace, whose failures never
propagate. -/
def log_to_airtable (open_ok : Bool) (create : Except String String) (env : AttachEnv) :
    List Ev :=
  if open_ok = false then []
  else
    match create with
    | .error _ => []
    | .ok _ => .created :: attach_pdf_to_log_record env

/-! ## The id-resolution loop of main -/

/-- The student-name extraction in main: the head of a non-empty list
value, else the stringified scalar through the Python truthiness
collapse of raw: None, the empty string, the empty list, and numeric
zero are all falsy, so they read as the empty string. -/
def extract_name : Val → String
  | .vlist (x :: _) => x
  | .vlist [] => ""
  | .vnone => ""
  | .vstr s => s
  | .vnum q => if q = 0 then "" else ratStr q

/-- One iteration of the id loop in main: a resolution failure is logged
and skipped; a resolved record with an empty student name is skipped; a
new student name appends its header fields. -/
def header_step (acc : List (String × Fields)) (item : Except String Rec) :
    List (String × Fields) :=
  match item with
  | .error _ => acc
  | .ok rec =>
    let name := extract_name rec.fields.student_name
    if name = "" then acc
    else if acc.any (fun p => p.1 = name) then acc
    else acc ++ [(name, rec.fields)]

/-- The id loop of main over the per-id resolution outcomes. -/
def resolve_loop (items : List (Except String Rec)) : List (String × Fields) :=
  items.foldl header_step []

/-- The post-loop exit test of main: the run exits non-zero exactly when
no usable header was collected. -/
def run_exits_nonzero (items : List (Except String Rec)) : Bool :=
  (resolve_loop items).isEmpty

/-- The module-level startup check: exit non-zero when both the
comma-separated id list and the single id are absent. -/
def startup_config_exit (record_ids_env record_id_single : String) : Bool :=
  strTrim record_ids_env = "" && record_id_single = ""

/-! ## Semester classifier (modelled from the spec) -/

/-- Modelled from the spec: the Semester Classifier operation
detectSemester is described in the spec but absent from src/main.py.
It lowers the concatenation of name and code and flags first-half on the
segments "-a" and " a " or a trailing " a", and second-half on the
symmetric "-b" pattern. -/
def detectSemester (name code : String) : Bool × Bool :=
  let t := strLower (name ++ code)
  (strHasSub t "-a" || strHasSub t " a " || strEndsWith t " a",
   strHasSub t "-b" || strHasSub t " b " || strEndsWith t " b")

/-- S1, S2, or unknown. -/
inductive SemFlag where
  | S1
  | S2
  | unknown
deriving DecidableEq

/-- Modelled from the spec: the semester flag carried by a course row;
both detector flags false means unknown, and first-half takes precedence
in the unspecified both-true case, matching the spec listing first-half
first. -/
def semesterFlag (name code : String) : SemFlag :=
  match detectSemester name code with
  | (true, _) => .S1
  | (false, true) => .S2
  | (false, false) => .unknown

/-- Modelled from the spec: course rows each carrying the semester flag
derived from their name and code columns. -/
def classified_course_rows (f : Fields) : List (List String × SemFlag) :=
  (build_course_rows f).map
    (fun row => (row, semesterFlag (row.getD 0 "") (row.getD 1 "")))

/-! ## Concrete inputs used by witnesses -/

/-- A resolved record with a non-empty identifier. -/
def recX : Rec := ⟨"recX", emptyFields⟩

/-- A distinct record returned by a cross-table search. -/
def recY : Rec := ⟨"recY", emptyFields⟩

/-- A record whose student name field is a non-empty string. -/
def recJane : Rec :=
  ⟨"r1", ⟨.vstr "Jane Doe", .vnone, .vnone, .vnone, .vnone, .vnone, .vnone, .vnone,
    .vnone, .vnone, .vnone⟩⟩

/-- Fields with one course and a teacher entry containing a comma. -/
def fTeacherComma : Fields :=
  ⟨.vnone, .vnone, .vnone, .vnone, .vlist ["X"], .vnone, .vlist ["Doe, Jane"],
    .vnone, .vnone, .vnone, .vnone⟩

/-- Fields with two courses and one comma-holding teacher entry, so the
second course takes the first-teacher fallback. -/
def fTwoCourses : Fields :=
  ⟨.vnone, .vnone, .vnone, .vnone, .vlist ["X", "Y"], .vnone, .vlist ["Doe, Jane"],
    .vnone, .vnone, .vnone, .vnone⟩

/-- Fields whose single course name carries a first-half marker. -/
def fAlg : Fields :=
  ⟨.vnone, .vnone, .vnone, .vnone, .vlist ["Algebra 1-A"], .vnone, .vnone, .vnone,
    .vnone, .vnone, .vnone⟩

/-! ## Claims -/

/-- C3: for every letter string and honors flag, quality_points maps the
recognized letter grades onto a base scale of at most four points (held
in tenths), adds exactly one point when honors holds and the normalized
letter is not F, returns the empty string on any unrecognized letter, and
quality_points of A without honors renders as the string 4. -/
theorem claim_C3 :
    (∀ letter honors, qpBase (normLetter letter) = none →
      quality_points letter honors = "")
    ∧ (∀ letter honors b, qpBase (normLetter letter) = some b →
        b ≤ 40
        ∧ quality_points letter false = fmtTenths b
        ∧ quality_points letter honors =
            fmtTenths (b + if honors ∧ normLetter letter ≠ "F" then 10 else 0))
    ∧ quality_points "A" false = "4" := by
  refine ⟨?_, ?_, by decide⟩
  · intro letter honors h
    unfold quality_points
    rw [h]
  · intro letter honors b h
    refine ⟨?_, ?_, ?_⟩
    · unfold qpBase at h
      rcases Option.map_eq_some'.mp h with ⟨p, hfind, hsnd⟩
      have hmem := List.mem_of_find?_eq_some hfind
      subst hsnd
      fin_cases hmem <;> decide
    · unfold quality_points
      rw [h]
      simp
    · unfold quality_points
      rw [h]

/-- C3 witness: the theorem applied to the letter B plus honors. -/
theorem claim_C3_witness :
    (35 : Nat) ≤ 40
    ∧ quality_points "B+" false = fmtTenths 35
    ∧ quality_points "B+" true =
        fmtTenths (35 + if true ∧ normLetter "B+" ≠ "F" then 10 else 0) :=
  claim_C3.2.1 "B+" true 35 (by decide)

/-! C8: listify on a comma-joined string versus on the native list. -/

theorem splitCharAux_no_sep (c : Char) :
    ∀ (xs acc : List Char), c ∉ xs → splitCharAux c xs acc = [⟨acc.reverse ++ xs⟩] := by
  intro xs
  induction xs with
  | nil => intro acc _; simp [splitCharAux]
  | cons x xs ih =>
    intro acc h
    have hx : ¬ (x == c) = true := by
      simp only [beq_iff_eq]
      intro he; exact h (he ▸ List.mem_cons_self x xs)
    have hxs : c ∉ xs := fun hc => h (List.mem_cons_of_mem x hc)
    simp only [splitCharAux, if_neg hx]
    rw [ih (x :: acc) hxs]
    simp

theorem splitCharAux_sep (c : Char) :
    ∀ (xs ys acc : List Char), c ∉ xs →
      splitCharAux c (xs ++ c :: ys) acc = ⟨acc.reverse ++ xs⟩ :: splitCharAux c ys [] := by
  intro xs
  induction xs with
  | nil =>
    intro ys acc _
    simp [splitCharAux]
  | cons x xs ih =>
    intro ys acc h
    have hx : ¬ (x == c) = true := by
      simp only [beq_iff_eq]
      intro he; exact h (he ▸ List.mem_cons_self x xs)
    have hxs : c ∉ xs := fun hc => h (List.mem_cons_of_mem x hc)
    simp only [List.cons_append, splitCharAux, if_neg hx, List.append_eq]
    rw [ih ys (x :: acc) hxs]
    simp

theorem splitChar_joinSep :
    ∀ tokens : List String, tokens ≠ [] → (∀ t ∈ tokens, ',' ∉ t.data) →
      splitChar ',' (joinSep "," tokens) = tokens := by
  intro tokens
  induction tokens with
  | nil => intro h _; exact absurd rfl h
  | cons x ts ih =>
    intro _ h
    match ts with
    | [] =>
      have hx : ',' ∉ x.data := h x (List.mem_cons_self x [])
      show splitCharAux ',' x.data [] = [x]
      rw [splitCharAux_no_sep ',' x.data [] hx]
      simp
    | y :: ts =>
      have hx : ',' ∉ x.data := h x (List.mem_cons_self x _)
      have hrest : ∀ t ∈ y :: ts, ',' ∉ t.data :=
        fun t ht => h t (List.mem_cons_of_mem x ht)
      show splitCharAux ',' (x ++ "," ++ joinSep "," (y :: ts)).data [] = x :: y :: ts
      have hdata : (x ++ "," ++ joinSep "," (y :: ts)).data
          = x.data ++ ',' :: (joinSep "," (y :: ts)).data := by
        simp [String.data_append]
      rw [hdata, splitCharAux_sep ',' x.data _ [] hx]
      have := ih (List.cons_ne_nil y ts) hrest
      unfold splitChar at this
      rw [this]
      simp

/-- C8 as stated is false: a trimmed non-empty token may itself contain a
comma, and then the comma-joined string splits into more tokens than the
native list holds. -/
theorem claim_C8_counterexample :
    (strTrim "a,b" = "a,b" ∧ "a,b" ≠ "")
    ∧ listify (Val.vstr (joinSep "," ["a,b"])) ≠ listify (Val.vlist ["a,b"]) := by
  decide

/-- C8 (amended): for every list of trimmed, non-empty tokens none of
which contains a comma, listify on the comma-joined string yields the
same ordered sequence as listify on the native list. -/
theorem filter_trim_clean :
    ∀ tokens : List String, (∀ t ∈ tokens, strTrim t = t ∧ t ≠ "") →
      (tokens.map strTrim).filter (fun x => x ≠ "") = tokens := by
  intro tokens
  induction tokens with
  | nil => intro _; rfl
  | cons t ts ih =>
    intro h
    have ht := h t (List.mem_cons_self t ts)
    have hts := fun u hu => h u (List.mem_cons_of_mem t hu)
    simp only [List.map_cons, List.filter_cons, ht.1]
    rw [if_pos (by simpa using ht.2)]
    rw [ih hts]

/-- C8 (amended): for every list of trimmed, non-empty tokens none of
which contains a comma, listify on the comma-joined string yields the
same ordered sequence as listify on the native list. -/
theorem claim_C8 (tokens : List String)
    (h : ∀ t ∈ tokens, strTrim t = t ∧ t ≠ "" ∧ ',' ∉ t.data) :
    listify (Val.vstr (joinSep "," tokens)) = listify (Val.vlist tokens) := by
  have hclean : ∀ t ∈ tokens, strTrim t = t ∧ t ≠ "" :=
    fun t ht => ⟨(h t ht).1, (h t ht).2.1⟩
  have hlist : listify (Val.vlist tokens) = tokens :=
    filter_trim_clean tokens hclean
  rcases eq_or_ne tokens [] with rfl | hne
  · decide
  · have hsplit := splitChar_joinSep tokens hne (fun t ht => (h t ht).2.2)
    rw [hlist]
    show ((splitChar ',' (joinSep "," tokens)).map strTrim).filter (fun x => x ≠ "")
        = tokens
    rw [hsplit]
    exact filter_trim_clean tokens hclean

/-- C8 witness: the amended theorem applied to two concrete comma-free
tokens. -/
theorem claim_C8_witness :
    listify (Val.vstr (joinSep "," ["x", "y z"])) = listify (Val.vlist ["x", "y z"]) :=
  claim_C8 ["x", "y z"] (by decide)

/-! C5: the merged rows passed onward in cross-table mode. -/

/-- C5 as stated is false: when the cross-table search returns zero
matches, the fallback bundle holds only the header fields and carries no
record identifier, so the merged sequence does not include the originally
resolved record with its id. -/
theorem claim_C5_counterexample :
    recX ∉ rows_passed_to_renderer (merged_rows_for_student true recX []) recX.fields := by
  decide

/-- C5 (amended): in cross-table mode with zero matches, the sequence
passed onward is a single bundle holding the resolved record fields with
an empty record identifier, not the resolved record itself; a non-empty
fetch result passes through unchanged, and scoped mode passes exactly the
resolved record. -/
theorem claim_C5 (rec : Rec) :
    rows_passed_to_renderer (merged_rows_for_student true rec []) rec.fields
        = [⟨"", rec.fields⟩]
    ∧ (∀ fetched : List Rec, fetched ≠ [] →
        rows_passed_to_renderer (merged_rows_for_student true rec fetched) rec.fields
          = fetched)
    ∧ merged_rows_for_student false rec [] = [rec] := by
  refine ⟨rfl, ?_, rfl⟩
  intro fetched hf
  simp [merged_rows_for_student, rows_passed_to_renderer, hf]

/-- C5 witness: a one-record fetch result passes through unchanged. -/
theorem claim_C5_witness :
    rows_passed_to_renderer (merged_rows_for_student true recX [recY]) recX.fields
      = [recY] :=
  (claim_C5 recX).2.1 [recY] (by decide)

/-! C9: exit behavior of the id-resolution loop. -/

theorem foldl_header_step_ne_nil :
    ∀ (items : List (Except String Rec)) (acc : List (String × Fields)),
      acc ≠ [] → items.foldl header_step acc ≠ [] := by
  intro items
  induction items with
  | nil => intro acc h; exact h
  | cons it rest ih =>
    intro acc h
    refine ih (header_step acc it) ?_
    cases it with
    | error e => exact h
    | ok rec =>
      simp only [header_step]
      split
      · exact h
      · split
        · exact h
        · simp

theorem mem_ok_foldl_ne_nil :
    ∀ (items : List (Except String Rec)) (acc : List (String × Fields)) (rec : Rec),
      Except.ok rec ∈ items → extract_name rec.fields.student_name ≠ "" →
      items.foldl header_step acc ≠ [] := by
  intro items
  induction items with
  | nil => intro acc rec hmem; exact absurd hmem (List.not_mem_nil _)
  | cons it rest ih =>
    intro acc rec hmem hname
    rcases List.mem_cons.mp hmem with heq | hmem2
    · subst heq
      refine foldl_header_step_ne_nil rest (header_step acc (Except.ok rec)) ?_
      simp only [header_step]
      split
      · contradiction
      · split
        · rename_i hany
          intro hnil
          rw [hnil] at hany
          simp at hany
        · simp
    · exact ih (header_step acc it) rec hmem2 hname

/-- C9 as stated is false: a resolution error is indeed skipped, but when
every identifier fails to resolve the loop collects no usable header and
the run exits non-zero through the no-usable-records check, which is not
a configuration error. -/
theorem claim_C9_counterexample :
    run_exits_nonzero [Except.error "record not found in any configured tables"]
      = true := by
  decide

/-- C9 (amended): a failed resolution is skipped and contributes nothing,
so processing continues for the remaining identifiers, and the run avoids
a non-zero exit provided at least one identifier resolves to a record
with a non-empty student name; missing id configuration still exits at
startup, and supplied ids do not. -/
theorem claim_C9 :
    (∀ pre post e,
      resolve_loop (pre ++ Except.error e :: post) = resolve_loop (pre ++ post))
    ∧ (∀ items rec, Except.ok rec ∈ items →
        extract_name rec.fields.student_name ≠ "" →
        run_exits_nonzero items = false)
    ∧ startup_config_exit "" "" = true
    ∧ startup_config_exit "rec1,rec2" "" = false := by
  refine ⟨?_, ?_, by decide, by decide⟩
  · intro pre post e
    unfold resolve_loop
    rw [List.foldl_append, List.foldl_append, List.foldl_cons]
    rfl
  · intro items rec hmem hname
    have h := mem_ok_foldl_ne_nil items [] rec hmem hname
    unfold run_exits_nonzero resolve_loop
    rw [List.isEmpty_eq_false]
    exact h

/-- C9 witness: a run with one failed and one resolved identifier does
not exit non-zero. -/
theorem claim_C9_witness :
    run_exits_nonzero [Except.error "nf", Except.ok recJane] = false :=
  claim_C9.2.1 [Except.error "nf", Except.ok recJane] recJane
    (List.mem_cons_of_mem _ (List.mem_cons_self _ _)) (by decide)

/-! C2: the table resolver tries candidates in order. -/

theorem get_rec_first_success (lookup : String → Except String Rec) :
    ∀ (ts1 : List String) (t : String) (r : Rec) (ts2 : List String),
      (∀ t1 ∈ ts1, ∃ e, lookup t1 = Except.error e) → lookup t = Except.ok r →
      ∀ last, get_rec_and_table lookup (ts1 ++ t :: ts2) last = (ts1 ++ [t], Except.ok (t, r)) := by
  intro ts1
  induction ts1 with
  | nil =>
    intro t r ts2 _ hok last
    simp [get_rec_and_table, hok]
  | cons t1 ts ih =>
    intro t r ts2 hfail hok last
    rcases hfail t1 (List.mem_cons_self t1 ts) with ⟨e, he⟩
    have hrest := ih t r ts2 (fun u hu => hfail u (List.mem_cons_of_mem t1 hu)) hok (some e)
    simp [get_rec_and_table, he, hrest]

theorem get_rec_all_fail (lookup : String → Except String Rec) :
    ∀ (ts : List String) (tl : String) (el : String),
      (∀ t1 ∈ ts, ∃ e, lookup t1 = Except.error e) → lookup tl = Except.error el →
      ∀ last, get_rec_and_table lookup (ts ++ [tl]) last = (ts ++ [tl], Except.error (some el)) := by
  intro ts
  induction ts with
  | nil =>
    intro tl el _ hl last
    simp [get_rec_and_table, hl]
  | cons t1 ts ih =>
    intro tl el hfail hl last
    rcases hfail t1 (List.mem_cons_self t1 ts) with ⟨e, he⟩
    have hrest := ih tl el (fun u hu => hfail u (List.mem_cons_of_mem t1 hu)) hl (some e)
    simp [get_rec_and_table, he, hrest]

/-- C2: the resolver attempts a point lookup in each candidate table in
list order; when a lookup succeeds it returns that table and record with
the attempted-table trace stopping there, so no later candidate is
touched; when every candidate fails, the trace covers all candidates and
the error carries the last underlying failure. -/
theorem claim_C2 :
    (∀ (lookup : String → Except String Rec) ts1 t r ts2,
      (∀ t1 ∈ ts1, ∃ e, lookup t1 = Except.error e) → lookup t = Except.ok r →
      get_rec_and_table lookup (ts1 ++ t :: ts2) none = (ts1 ++ [t], Except.ok (t, r)))
    ∧ (∀ (lookup : String → Except String Rec) ts tl el,
      (∀ t1 ∈ ts, ∃ e, lookup t1 = Except.error e) → lookup tl = Except.error el →
      get_rec_and_table lookup (ts ++ [tl]) none = (ts ++ [tl], Except.error (some el))) :=
  ⟨fun lookup ts1 t r ts2 hfail hok =>
      get_rec_first_success lookup ts1 t r ts2 hfail hok none,
   fun lookup ts tl el hfail hl =>
      get_rec_all_fail lookup ts tl el hfail hl none⟩

/-- A lookup that only the second table satisfies. -/
def lookupW : String → Except String Rec :=
  fun t => if t = "T2" then Except.ok recX else Except.error ("no " ++ t)

/-- C2 witness: with three candidates and the record only in the second,
resolution stops at the second table and never touches the third. -/
theorem claim_C2_witness :
    get_rec_and_table lookupW ["T1", "T2", "T3"] none
      = (["T1", "T2"], Except.ok ("T2", recX)) :=
  claim_C2.1 lookupW ["T1"] "T2" recX ["T3"]
    (by
      intro t1 ht
      have h1 : t1 = "T1" := by simpa using ht
      subst h1
      exact ⟨"no T1", rfl⟩)
    rfl

/-! C7: the two-tier attachment fallback. -/

/-- C7: with a non-empty attachment field and an existing artifact file,
a primary-transport failure triggers the secondary transport exactly
once; when the secondary post succeeds with an asset id and the record
patch succeeds, the trace records the patch; when the secondary post also
fails, the audit record still exists and carries no patch; and the audit
record exists whatever the attachment outcomes, since attachment failure
never escalates. -/
theorem claim_C7 (env : AttachEnv) (hfield : env.field_name ≠ "")
    (hfile : env.file_exists = true) :
    (∀ e, env.primary = Except.error e →
      (attach_pdf_to_log_record env).count Ev.secondaryAttempt = 1
      ∧ (∀ uid, env.post = Except.ok (some uid) → env.update = Except.ok () →
          Ev.patch uid ∈ attach_pdf_to_log_record env)
      ∧ (∀ e2, env.post = Except.error e2 → ∀ recId uid,
          Ev.created ∈ log_to_airtable true (Except.ok recId) env
          ∧ Ev.patch uid ∉ log_to_airtable true (Except.ok recId) env))
    ∧ (∀ u, env.primary = Except.ok u →
        (attach_pdf_to_log_record env).count Ev.secondaryAttempt = 0)
    ∧ (∀ recId, Ev.created ∈ log_to_airtable true (Except.ok recId) env) := by
  have hmain : ∀ e, env.primary = Except.error e →
      attach_pdf_to_log_record env
        = Ev.primaryAttempt :: Ev.secondaryAttempt ::
            (match env.post with
             | Except.error _ => []
             | Except.ok none => []
             | Except.ok (some uid) =>
               match env.update with
               | Except.ok _ => [Ev.patch uid]
               | Except.error _ => []) := by
    intro e hp
    unfold attach_pdf_to_log_record
    rw [if_neg hfield, hfile, if_neg (by simp), hp]
  refine ⟨?_, ?_, ?_⟩
  · intro e hp
    rw [hmain e hp]
    refine ⟨?_, ?_, ?_⟩
    · rcases hpost : env.post with e2 | o
      · simp [List.count_cons]
      · rcases o with _ | uid
        · simp [List.count_cons]
        · rcases hupd : env.update with e3 | u
          · simp [List.count_cons]
          · simp [List.count_cons]
    · intro uid hpost hupd
      rw [hpost, hupd]
      simp
    · intro e2 hpost recId uid
      constructor
      · simp [log_to_airtable]
      · simp [log_to_airtable, hmain e hp, hpost]
  · intro u hp
    unfold attach_pdf_to_log_record
    rw [if_neg hfield, hfile, if_neg (by simp), hp]
    simp [List.count_cons]
  · intro recId
    simp [log_to_airtable]

/-- Attacher outcomes: field configured, file present, primary transport
down, secondary post returning an asset id, patch succeeding. -/
def envW : AttachEnv :=
  ⟨"Transcript PDF", true, Except.error "primary down", Except.ok (some "att1"),
    Except.ok ()⟩

/-- C7 witness: the theorem applied to the concrete environment with a
failing primary transport and a succeeding fallback. -/
theorem claim_C7_witness :
    (attach_pdf_to_log_record envW).count Ev.secondaryAttempt = 1
    ∧ Ev.patch "att1" ∈ attach_pdf_to_log_record envW :=
  ⟨((claim_C7 envW (by decide) rfl).1 "primary down" rfl).1,
   ((claim_C7 envW (by decide) rfl).1 "primary down" rfl).2.1 "att1" rfl rfl⟩

/-! C6: the row reconciler in build_pdf. -/

theorem dedup_clean_mem :
    ∀ (l seen : List (List String)) (r : List String),
      r ∈ dedup_clean l seen → r ∉ seen ∧ row_has_content r = true := by
  intro l
  induction l with
  | nil => intro seen r h; exact absurd h (List.not_mem_nil r)
  | cons row rest ih =>
    intro seen r h
    by_cases hc : row ∉ seen ∧ row_has_content row = true
    · rw [dedup_clean, if_pos (by simpa using hc)] at h
      rcases List.mem_cons.mp h with rfl | htail
      · exact hc
      · have := ih (row :: seen) r htail
        exact ⟨fun hs => this.1 (List.mem_cons_of_mem row hs), this.2⟩
    · rw [dedup_clean, if_neg (by simpa using hc)] at h
      exact ih seen r h

theorem dedup_clean_nodup :
    ∀ (l seen : List (List String)), (dedup_clean l seen).Nodup := by
  intro l
  induction l with
  | nil => intro seen; exact List.nodup_nil
  | cons row rest ih =>
    intro seen
    by_cases hc : row ∉ seen ∧ row_has_content row = true
    · rw [dedup_clean, if_pos (by simpa using hc)]
      refine List.nodup_cons.mpr ⟨?_, ih (row :: seen)⟩
      intro hmem
      exact (dedup_clean_mem rest (row :: seen) row hmem).1 (List.mem_cons_self row seen)
    · rw [dedup_clean, if_neg (by simpa using hc)]
      exact ih seen

theorem dedup_clean_id :
    ∀ (l seen : List (List String)), l.Nodup →
      (∀ r ∈ l, row_has_content r = true) → (∀ r ∈ l, r ∉ seen) →
      dedup_clean l seen = l := by
  intro l
  induction l with
  | nil => intro seen _ _ _; rfl
  | cons row rest ih =>
    intro seen hnd hcont hseen
    have h1 : row ∉ seen := hseen row (List.mem_cons_self row rest)
    have h2 : row_has_content row = true := hcont row (List.mem_cons_self row rest)
    rw [dedup_clean, if_pos (by simpa using And.intro h1 h2)]
    congr 1
    refine ih (row :: seen) (List.nodup_cons.mp hnd).2
      (fun r hr => hcont r (List.mem_cons_of_mem row hr)) ?_
    intro r hr
    rcases List.nodup_cons.mp hnd with ⟨hrow, _⟩
    intro hmem
    rcases List.mem_cons.mp hmem with rfl | hs
    · exact hrow hr
    · exact hseen r (List.mem_cons_of_mem row hr) hs

/-- C6: the reconciled row list has no duplicate tuple, no all-blank row,
is sorted ascending by the lowered name-code pair, collapses to exactly
the placeholder row when nothing survives the dedupe-and-filter pass, and
reconciling a reconciled list changes nothing. -/
theorem claim_C6 (expanded : List (List String)) :
    (reconcile expanded).Nodup
    ∧ (∀ row ∈ reconcile expanded, row_has_content row = true)
    ∧ (reconcile expanded).Sorted row_le
    ∧ (dedup_clean expanded [] = [] → reconcile expanded = [no_courses_row])
    ∧ reconcile (reconcile expanded) = reconcile expanded := by
  by_cases hs : List.insertionSort row_le (dedup_clean expanded []) = []
  · have hrec : reconcile expanded = [no_courses_row] := by
      simp only [reconcile]
      rw [if_pos hs]
    refine ⟨?_, ?_, ?_, ?_, ?_⟩
    · rw [hrec]; exact List.nodup_singleton _
    · rw [hrec]; intro row hrow
      rcases List.mem_singleton.mp hrow with rfl
      decide
    · rw [hrec]; exact List.sorted_singleton _
    · intro _; exact hrec
    · rw [hrec]; decide
  · have hrec : reconcile expanded = List.insertionSort row_le (dedup_clean expanded []) := by
      simp only [reconcile]
      rw [if_neg hs]
    have hnodup : (reconcile expanded).Nodup := by
      rw [hrec]
      exact ((List.perm_insertionSort row_le (dedup_clean expanded [])).nodup_iff).mpr
        (dedup_clean_nodup expanded [])
    have hcont : ∀ row ∈ reconcile expanded, row_has_content row = true := by
      rw [hrec]
      intro row hrow
      have hmem : row ∈ dedup_clean expanded [] :=
        (List.mem_insertionSort row_le).mp hrow
      exact (dedup_clean_mem expanded [] row hmem).2
    have hsorted : (reconcile expanded).Sorted row_le := by
      rw [hrec]
      exact List.sorted_insertionSort row_le (dedup_clean expanded [])
    refine ⟨hnodup, hcont, hsorted, ?_, ?_⟩
    · intro hnil
      exact absurd (by rw [hnil]; rfl) hs
    · have hclean2 : dedup_clean (reconcile expanded) [] = reconcile expanded :=
        dedup_clean_id (reconcile expanded) [] hnodup hcont
          (fun r _ => List.not_mem_nil r)
      have hsort2 : List.insertionSort row_le (reconcile expanded) = reconcile expanded :=
        hsorted.insertionSort_eq
      have hne : reconcile expanded ≠ [] := by rw [hrec]; exact hs
      conv_lhs => simp only [reconcile]
      rw [if_neg hs, ← hrec, hclean2, hsort2, if_neg hne]

/-- C6 witness: the theorem applied to the empty expansion, where nothing
survives and exactly the placeholder row is produced. -/
theorem claim_C6_witness : reconcile [] = [no_courses_row] :=
  (claim_C6 []).2.2.2.1 rfl

/-! C1: the semester classifier (modelled from the spec). -/

/-- C1: detectSemester flags the three reference inputs as first-half,
second-half, and neither, and every classified course row carries exactly
the semester flag derived from its name and code columns. -/
theorem claim_C1 :
    detectSemester "Algebra 1-A" "" = (true, false)
    ∧ detectSemester "Algebra 1-B" "" = (false, true)
    ∧ detectSemester "Algebra 1" "" = (false, false)
    ∧ ∀ f p, p ∈ classified_course_rows f →
        p.2 = semesterFlag (p.1.getD 0 "") (p.1.getD 1 "") := by
  refine ⟨by decide, by decide, by decide, ?_⟩
  intro f p hp
  rcases List.mem_map.mp hp with ⟨row, _, rfl⟩
  rfl

/-- C1 witness: the flag-carrying invariant applied to a concrete course
row classified as first-half. -/
theorem claim_C1_witness :
    ((["Algebra 1-A", "", "", "—", "", ""], SemFlag.S1) : List String × SemFlag).2
      = semesterFlag ((["Algebra 1-A", "", "", "—", "", ""] : List String).getD 0 "")
          ((["Algebra 1-A", "", "", "—", "", ""] : List String).getD 1 "") :=
  claim_C1.2.2.2 fAlg (["Algebra 1-A", "", "", "—", "", ""], SemFlag.S1) (by decide)

/-! C4 and C10: the course-row expander. -/

theorem pair_single_left (ns cs : List String) (hne : ns.length ≠ cs.length)
    (x : String) (hx : ns = [x]) :
    pair_names_codes ns cs = (List.replicate cs.length x, cs) := by
  subst hx
  unfold pair_names_codes
  rw [if_pos hne]
  by_cases h2 : 1 < cs.length
  · rw [if_pos ⟨rfl, h2⟩]
    rfl
  · have h0 : cs.length = 0 := by
      have : cs.length ≠ 1 := fun hc => hne (hc ▸ rfl)
      omega
    have hcs : cs = [] := List.eq_nil_of_length_eq_zero h0
    subst hcs
    rw [if_neg (by simp), if_neg (by simp)]
    simp

theorem pair_single_right (ns cs : List String) (hne : ns.length ≠ cs.length)
    (y : String) (hy : cs = [y]) :
    pair_names_codes ns cs = (ns, List.replicate ns.length y) := by
  subst hy
  unfold pair_names_codes
  rw [if_pos hne]
  have hn1 : ns.length ≠ 1 := fun hc => hne (by simp [hc])
  by_cases h2 : 1 < ns.length
  · rw [if_neg (by rintro ⟨h, _⟩; exact hn1 h), if_pos ⟨rfl, h2⟩]
    rfl
  · have h0 : ns.length = 0 := by omega
    have hns : ns = [] := List.eq_nil_of_length_eq_zero h0
    subst hns
    rw [if_neg (by simp), if_neg (by simp)]
    simp

theorem pair_truncate (ns cs : List String) (hne : ns.length ≠ cs.length)
    (h2 : 2 ≤ ns.length) (h3 : 2 ≤ cs.length) :
    pair_names_codes ns cs
      = (ns.take (min ns.length cs.length), cs.take (min ns.length cs.length)) := by
  unfold pair_names_codes
  rw [if_pos hne, if_neg (by rintro ⟨h, _⟩; omega), if_neg (by rintro ⟨h, _⟩; omega)]

/-- Every emitted course row is the six-column list built at some index:
trimmed name, trimmed code, comma-truncated teacher entry, the shared
letter display, the shared percent, and the derived credits. -/
theorem build_course_rows_shape (f : Fields) (row : List String)
    (h : row ∈ build_course_rows f) :
    ∃ i nm cd, row
      = [nm, cd,
         first_comma_trim (teacher_entry (listify f.assigned_teachers) i),
         if letter_of f = "" then "—" else letter_of f,
         fmt_percent f.current_score,
         quality_points (letter_of f) (looks_honors nm)] := by
  simp only [build_course_rows] at h
  split at h
  · exact absurd h (List.not_mem_nil row)
  · rcases List.mem_filterMap.mp h with ⟨i, _, hrow⟩
    unfold course_row_at at hrow
    split at hrow
    · exact Option.noConfusion hrow
    · exact ⟨i, _, _, (Option.some.inj hrow).symm⟩

/-- C4: a singleton names or codes list is broadcast to the length of the
other side whenever the lengths differ; any other mismatch truncates both
sides to the shorter length; and the letter display and percent of a
source row appear identically on every course row expanded from it. -/
theorem claim_C4 :
    (∀ (ns cs : List String) x, ns.length ≠ cs.length → ns = [x] →
      pair_names_codes ns cs = (List.replicate cs.length x, cs))
    ∧ (∀ (ns cs : List String) y, ns.length ≠ cs.length → cs = [y] →
      pair_names_codes ns cs = (ns, List.replicate ns.length y))
    ∧ (∀ ns cs : List String, ns.length ≠ cs.length → 2 ≤ ns.length → 2 ≤ cs.length →
      pair_names_codes ns cs
        = (ns.take (min ns.length cs.length), cs.take (min ns.length cs.length)))
    ∧ (∀ f row, row ∈ build_course_rows f →
      row.getD 3 "" = (if letter_of f = "" then "—" else letter_of f)
      ∧ row.getD 4 "" = fmt_percent f.current_score) := by
  refine ⟨fun ns cs x hne hx => pair_single_left ns cs hne x hx,
          fun ns cs y hne hy => pair_single_right ns cs hne y hy,
          fun ns cs hne h2 h3 => pair_truncate ns cs hne h2 h3,
          ?_⟩
  intro f row h
  rcases build_course_rows_shape f row h with ⟨i, nm, cd, rfl⟩
  exact ⟨rfl, rfl⟩

/-- C4 witness: the broadcast rule on a concrete singleton-versus-pair
input, and the shared letter display and percent on a concrete emitted
row. -/
theorem claim_C4_witness :
    pair_names_codes ["n"] ["c", "d"] = (["n", "n"], ["c", "d"])
    ∧ ((["X", "", "Doe", "—", "", ""] : List String).getD 3 ""
         = (if letter_of fTeacherComma = "" then "—" else letter_of fTeacherComma)
       ∧ (["X", "", "Doe", "—", "", ""] : List String).getD 4 ""
         = fmt_percent fTeacherComma.current_score) :=
  ⟨claim_C4.1 ["n"] ["c", "d"] "n" (by decide) rfl,
   claim_C4.2.2.2 fTeacherComma ["X", "", "Doe", "—", "", ""] (by decide)⟩

/-- C10: the teacher column of every emitted course row is the portion of
the paired assigned-teachers entry before its first comma, trimmed; the
first-teacher fallback is itself the head entry truncated the same way;
and on concrete inputs a comma-holding teacher value is truncated both in
the parallel position and in the fallback position. -/
theorem claim_C10 :
    (∀ f row, row ∈ build_course_rows f →
      ∃ i, row.getD 2 ""
        = first_comma_trim (teacher_entry (listify f.assigned_teachers) i))
    ∧ (∀ teachers : List String,
        first_teacher teachers = first_comma_trim (teachers.headD ""))
    ∧ build_course_rows fTeacherComma = [["X", "", "Doe", "—", "", ""]]
    ∧ build_course_rows fTwoCourses
        = [["X", "", "Doe", "—", "", ""], ["Y", "", "Doe", "—", "", ""]] := by
  refine ⟨?_, ?_, by decide, by decide⟩
  · intro f row h
    rcases build_course_rows_shape f row h with ⟨i, nm, cd, rfl⟩
    exact ⟨i, rfl⟩
  · intro teachers
    cases teachers with
    | nil => decide
    | cons t ts => rfl

/-- C10 witness: the teacher-truncation invariant applied to the concrete
row expanded from a comma-holding teacher entry. -/
theorem claim_C10_witness :
    ∃ i, (["X", "", "Doe", "—", "", ""] : List String).getD 2 ""
      = first_comma_trim (teacher_entry (listify fTeacherComma.assigned_teachers) i) :=
  claim_C10.1 fTeacherComma ["X", "", "Doe", "—", "", ""] (by decide)

end TranscriptGen
